import Mathlib

/-!
Verification of the constraint-compilation layer of the CPMpy solver
interfaces (src/cpmpy/solvers/exact.py and src/cpmpy/solvers/z3.py).

Pure functions of the Python source are translated into Lean functions;
the mutable solver sessions become explicit state passing.  Backend
primitives (the Exact reification and bounded-linear constraints, the
nested z3 expressions) live outside this repository, so their logical
meaning is modelled from the specification, as marked on each such
definition.
-/

/-- Leaf argument of a flat numeric expression: a constant or a decision
variable referred to by name (in exact.py a solver handle is exactly the
string name of the variable). -/
inductive Atom
  | num (n : Int)
  | var (v : String)
  deriving DecidableEq

/-- Flat numeric left-hand sides accepted by CPM_exact._make_numexpr:
a constant, a bare variable, a sum, a weighted sum, or a two-argument
subtraction.  Any other node kind raises NotImplementedError in the
source and is outside this type. -/
inductive FlatLhs
  | num (n : Int)
  | var (v : String)
  | sum (args : List Atom)
  | wsum (cs : List Int) (xs : List Atom)
  | sub (a b : String)
  deriving DecidableEq

/-- Value of an atom under an integer assignment of the variables. -/
def Atom.eval (ρ : String → Int) : Atom → Int
  | .num n => n
  | .var v => ρ v

/-- Value of a flat numeric expression under an integer assignment.
The weighted sum pairs coefficients with arguments exactly as the
Python zip does, truncating to the shorter list. -/
def FlatLhs.eval (ρ : String → Int) : FlatLhs → Int
  | .num n => n
  | .var v => ρ v
  | .sum args => (args.map (Atom.eval ρ)).sum
  | .wsum cs xs => ((cs.zip xs).map (fun p => p.1 * Atom.eval ρ p.2)).sum
  | .sub a b => ρ a - ρ b

/-- Contribution of the arguments of a `sum` node in _make_numexpr:
constants fold (negated) into the right-hand side, variables get
coefficient 1. -/
def sumParts : List Atom → List Int × List String × Int
  | [] => ([], [], 0)
  | .num n :: rest =>
      match sumParts rest with
      | (cs, vs, r) => (cs, vs, r - n)
  | .var x :: rest =>
      match sumParts rest with
      | (cs, vs, r) => (1 :: cs, x :: vs, r)

/-- Contribution of the zipped arguments of a `wsum` node in
_make_numexpr: a constant argument folds `c * x` (negated) into the
right-hand side, a variable argument keeps its explicit coefficient. -/
def wsumParts : List (Int × Atom) → List Int × List String × Int
  | [] => ([], [], 0)
  | (c, .num n) :: rest =>
      match wsumParts rest with
      | (cs, vs, r) => (cs, vs, r - c * n)
  | (c, .var x) :: rest =>
      match wsumParts rest with
      | (cs, vs, r) => (c :: cs, x :: vs, r)

/-- Contribution of the comparison right-hand side in _make_numexpr:
a number adds to `xrhs`, a variable contributes coefficient -1. -/
def rhsParts : Atom → List Int × List String × Int
  | .num n => ([], [], n)
  | .var v => ([-1], [v], 0)

/-- Contribution of the comparison left-hand side in _make_numexpr. -/
def lhsParts : FlatLhs → List Int × List String × Int
  | .num n => ([], [], -n)
  | .var v => ([1], [v], 0)
  | .sum args => sumParts args
  | .wsum cs xs => wsumParts (cs.zip xs)
  | .sub a b => ([1, -1], [a, b], 0)

/-- CPM_exact._make_numexpr: normalizes a flat comparison `lhs (op) rhs`
into one `(coefficients, variables, right-hand side)` triple.  The
Python code processes the right-hand side first and then appends the
left-hand side contributions. -/
def make_numexpr (lhs : FlatLhs) (rhs : Atom) : List Int × List String × Int :=
  ((rhsParts rhs).1 ++ (lhsParts lhs).1,
   (rhsParts rhs).2.1 ++ (lhsParts lhs).2.1,
   (rhsParts rhs).2.2 + (lhsParts lhs).2.2)

/-- Value of a coefficient/variable list under an assignment: the sum of
`c_i * value(v_i)` over the paired entries. -/
def linval (cs : List Int) (vs : List String) (ρ : String → Int) : Int :=
  match cs, vs with
  | c :: cs, v :: vs => c * ρ v + linval cs vs ρ
  | _, _ => 0

/-- Coefficient negation, the `[-x for x in xct_coefs]` of the source. -/
def negCoefs (cs : List Int) : List Int := cs.map (fun x => -x)

/-- Magnitude threshold of exact.py: values with absolute value above
`1e18` are transferred to the backend as strings.  Python compares an
int against the float literal 1e18 exactly, and 1e18 is exactly the
integer 10^18, so the comparison is `x > 10^18`. -/
def bigThreshold : Int := 10 ^ 18

/-- Maximum of the absolute values of a coefficient list, mirroring
`max([abs(x) for x in xct_coefs])`; `none` when the list is empty, in
which case the Python max() raises ValueError. -/
def coefMaxAbs : List Int → Option Int
  | [] => none
  | c :: cs => some (cs.foldl (fun m x => max m |x|) |c|)

/-- Primitive constraints posted to the Exact backend.  The `asString`
flag records whether the string-encoded transfer variant was chosen;
both variants carry the same logical content. -/
inductive XctPrim
  | constr (asString : Bool) (cs : List Int) (vs : List String)
      (uselb : Bool) (lb : Int) (useub : Bool) (ub : Int)
  | reif (asString : Bool) (head : String) (cs : List Int) (vs : List String) (lb : Int)
  | reifRight (asString : Bool) (head : String) (cs : List Int) (vs : List String) (rhs : Int)
  | reifLeft (asString : Bool) (head : String) (cs : List Int) (vs : List String) (rhs : Int)
  deriving DecidableEq

/-- The transfer-variant flag of a posted primitive. -/
def XctPrim.strEnc : XctPrim → Bool
  | .constr b _ _ _ _ _ _ => b
  | .reif b _ _ _ _ => b
  | .reifRight b _ _ _ _ => b
  | .reifLeft b _ _ _ _ => b

/-- The `(hasLower, lower, hasUpper, upper)` quadruple of a
bounded-linear primitive. -/
def XctPrim.quad : XctPrim → Option (Bool × Int × Bool × Int)
  | .constr _ _ _ uselb lb useub ub => some (uselb, lb, useub, ub)
  | _ => none

/-- The coefficient and variable lists of a posted primitive. -/
def XctPrim.linParts : XctPrim → List Int × List String
  | .constr _ cs vs _ _ _ _ => (cs, vs)
  | .reif _ _ cs vs _ => (cs, vs)
  | .reifRight _ _ cs vs _ => (cs, vs)
  | .reifLeft _ _ cs vs _ => (cs, vs)

/-- CPM_exact._add_xct_constr: computes the maximum magnitude over the
coefficients and the active bounds, and picks the string-encoded
variant exactly when it exceeds the threshold. -/
def add_xct_constr (cs : List Int) (vs : List String)
    (uselb : Bool) (lb : Int) (useub : Bool) (ub : Int) : Option XctPrim :=
  match coefMaxAbs cs with
  | none => none
  | some m =>
      some (.constr
        (decide (max (max m |if uselb = true then lb else 0|)
          |if useub = true then ub else 0| > bigThreshold))
        cs vs uselb lb useub ub)

/-- CPM_exact._add_xct_reif. -/
def add_xct_reif (head : String) (cs : List Int) (vs : List String) (lb : Int) :
    Option XctPrim :=
  match coefMaxAbs cs with
  | none => none
  | some m => some (.reif (decide (max m |lb| > bigThreshold)) head cs vs lb)

/-- CPM_exact._add_xct_reif_right. -/
def add_xct_reif_right (head : String) (cs : List Int) (vs : List String) (rhs : Int) :
    Option XctPrim :=
  match coefMaxAbs cs with
  | none => none
  | some m => some (.reifRight (decide (max m |rhs| > bigThreshold)) head cs vs rhs)

/-- CPM_exact._add_xct_reif_left. -/
def add_xct_reif_left (head : String) (cs : List Int) (vs : List String) (rhs : Int) :
    Option XctPrim :=
  match coefMaxAbs cs with
  | none => none
  | some m => some (.reifLeft (decide (max m |rhs| > bigThreshold)) head cs vs rhs)

/-- Comparison operators that survive the upstream transformations and
reach CPM_exact._post_constraint. -/
inductive CmpOp
  | le
  | ge
  | eq
  deriving DecidableEq

/-- Truth of a comparison between two integer values. -/
def cmpSem : CmpOp → Int → Int → Prop
  | .le, a, b => a ≤ b
  | .ge, a, b => a ≥ b
  | .eq, a, b => a = b

instance cmpSemDecidable (op : CmpOp) (a b : Int) : Decidable (cmpSem op a b) :=
  match op with
  | .le => inferInstanceAs (Decidable (a ≤ b))
  | .ge => inferInstanceAs (Decidable (a ≥ b))
  | .eq => inferInstanceAs (Decidable (a = b))

/-- Comparison branch of CPM_exact._post_constraint: normalize, then
emit one bounded-linear primitive whose bound quadruple depends on the
operator. -/
def post_comparison (op : CmpOp) (lhs : FlatLhs) (rhs : Atom) : Option XctPrim :=
  match op with
  | .le => add_xct_constr (make_numexpr lhs rhs).1 (make_numexpr lhs rhs).2.1
      false 0 true (make_numexpr lhs rhs).2.2
  | .ge => add_xct_constr (make_numexpr lhs rhs).1 (make_numexpr lhs rhs).2.1
      true (make_numexpr lhs rhs).2.2 false 0
  | .eq => add_xct_constr (make_numexpr lhs rhs).1 (make_numexpr lhs rhs).2.1
      true (make_numexpr lhs rhs).2.2 true (make_numexpr lhs rhs).2.2

/-- Left-hand sides accepted by the indicator branch of
_post_constraint (its assert): a variable, a sum, or a weighted sum. -/
def validIndicatorLhs : FlatLhs → Bool
  | .var _ => true
  | .sum _ => true
  | .wsum _ _ => true
  | _ => false

/-- Six-case emission of the indicator branch of
CPM_exact._post_constraint on the normalized triple.  `positive` is
False exactly when the condition was a NegBoolView, in which case the
emitted heads still name the base variable and the Left reification
(with the strict-to-non-strict one-shifted bounds) is used. -/
def indicator_emit (positive : Bool) (head : String) (op : CmpOp)
    (cs : List Int) (vs : List String) (r : Int) : Option (List XctPrim) :=
  match op, positive with
  | .eq, true =>
      match add_xct_reif_right head cs vs r,
            add_xct_reif_right head (negCoefs cs) vs (-r) with
      | some p1, some p2 => some [p1, p2]
      | _, _ => none
  | .eq, false =>
      match add_xct_reif_left head cs vs (1 + r),
            add_xct_reif_left head (negCoefs cs) vs (1 - r) with
      | some p1, some p2 => some [p1, p2]
      | _, _ => none
  | .ge, true => (add_xct_reif_right head cs vs r).map (fun p => [p])
  | .ge, false => (add_xct_reif_left head (negCoefs cs) vs (1 - r)).map (fun p => [p])
  | .le, true => (add_xct_reif_right head (negCoefs cs) vs (-r)).map (fun p => [p])
  | .le, false => (add_xct_reif_left head cs vs (1 + r)).map (fun p => [p])

/-- Indicator branch of CPM_exact._post_constraint: after the assert on
the left-hand side shape, the comparison is normalized with
_make_numexpr and the six-case emission runs on the resulting triple. -/
def post_indicator (positive : Bool) (head : String) (op : CmpOp)
    (lhs : FlatLhs) (rhs : Atom) : Option (List XctPrim) :=
  if validIndicatorLhs lhs = true then
    indicator_emit positive head op (make_numexpr lhs rhs).1
      (make_numexpr lhs rhs).2.1 (make_numexpr lhs rhs).2.2
  else none

/-- Modelled from the spec: logical meaning of the Exact backend
primitives (the backend itself is an external package).  Section 6 and
the section 4.3 glossary fix the reading: a bounded-linear primitive
enforces the active bounds on the linear value; a Right reification is
condition-implies-constraint, a Left reification is
constraint-implies-condition, each over the linear-sum-at-least-bound
constraint; a full reification is the equivalence.  A Boolean variable
is an integer with domain {0,1}, true when it equals 1.  The
string-encoded and numeric transfer variants round-trip exactly, so
both carry the same meaning. -/
def XctPrim.sat (ρ : String → Int) : XctPrim → Prop
  | .constr _ cs vs uselb lb useub ub =>
      (uselb = true → linval cs vs ρ ≥ lb) ∧ (useub = true → linval cs vs ρ ≤ ub)
  | .reif _ head cs vs lb => (ρ head = 1 ↔ linval cs vs ρ ≥ lb)
  | .reifRight _ head cs vs rhs => ρ head = 1 → linval cs vs ρ ≥ rhs
  | .reifLeft _ head cs vs rhs => linval cs vs ρ ≥ rhs → ρ head = 1

/-- Satisfaction of the output of a compilation step that emits one
optional primitive. -/
def compiledSat (ρ : String → Int) : Option XctPrim → Prop
  | none => False
  | some p => XctPrim.sat ρ p

/-- Joint satisfaction of the output of the indicator compiler. -/
def compiledIndicatorSat (ρ : String → Int) : Option (List XctPrim) → Prop
  | none => False
  | some ps => ∀ p ∈ ps, XctPrim.sat ρ p

/-- Truth of the indicator condition: a direct condition holds when the
base Boolean equals 1, a negated condition when it equals 0. -/
def condSem (positive : Bool) (b : Int) : Prop :=
  if positive then b = 1 else b = 0

instance condSemDecidable (positive : Bool) (b : Int) : Decidable (condSem positive b) :=
  inferInstanceAs (Decidable (if positive then b = 1 else b = 0))

/-- One-directional reification primitives as written in the spec table
of section 4.3, without the transfer-variant detail. -/
inductive SpecPrim
  | rightR (head : String) (cs : List Int) (vs : List String) (r : Int)
  | leftR (head : String) (cs : List Int) (vs : List String) (r : Int)
  deriving DecidableEq

/-- Modelled from the spec: the six-case table of section 4.3, written
from its rows verbatim (Right reifications for a direct condition, Left
reifications with the plus-one and one-minus shifted bounds for a
negated condition). -/
def specIndicatorTable (positive : Bool) (head : String) (op : CmpOp)
    (cs : List Int) (vs : List String) (r : Int) : List SpecPrim :=
  match op, positive with
  | .eq, true => [.rightR head cs vs r, .rightR head (negCoefs cs) vs (-r)]
  | .eq, false => [.leftR head cs vs (r + 1), .leftR head (negCoefs cs) vs (1 - r)]
  | .ge, true => [.rightR head cs vs r]
  | .ge, false => [.leftR head (negCoefs cs) vs (1 - r)]
  | .le, true => [.rightR head (negCoefs cs) vs (-r)]
  | .le, false => [.leftR head cs vs (1 + r)]

/-- Forgetful view of an emitted primitive as a spec-table row. -/
def XctPrim.toSpec : XctPrim → SpecPrim
  | .reifRight _ head cs vs r => .rightR head cs vs r
  | .reifLeft _ head cs vs r => .leftR head cs vs r
  | .constr _ cs vs _ lb _ _ => .rightR "" cs vs lb
  | .reif _ head cs vs lb => .rightR head cs vs lb

/-- Modelled from the spec: the bound quadruple of section 4.2 for each
comparison operator; the inactive slot holds the 0 the code passes. -/
def specCompQuad : CmpOp → Int → Bool × Int × Bool × Int
  | .le, r => (false, 0, true, r)
  | .ge, r => (true, r, false, 0)
  | .eq, r => (true, r, true, r)

/-- CPMpy decision variables as they reach the two solver interfaces: a
Boolean variable, the negated view of a Boolean variable, or a bounded
integer variable. -/
inductive CpmVar
  | boolVar (name : String)
  | negView (base : String)
  | intVar (name : String) (lb ub : Int)
  deriving DecidableEq

/-- Lookup in a session variable cache, keyed by variable identity. -/
def lookupVar {α : Type} (m : List (CpmVar × α)) (v : CpmVar) : Option α :=
  match m with
  | [] => none
  | (k, h) :: rest => if k = v then some h else lookupVar rest v

/-- Variable declarations sent to the Exact backend by addVariable;
`declAsString` is the string-encoded transfer form used for magnitudes
above the threshold. -/
inductive XctDecl
  | declNum (name : String) (lb ub : Int)
  | declAsString (name : String) (lb ub : Int)
  deriving DecidableEq

/-- Failures of the Exact interface layer. -/
inductive XctErr
  | attributeError
  | objectiveAlreadySet
  | notAKnownVar
  deriving DecidableEq

/-- Materializer state of a CPM_exact session: the `_varmap` cache and
the declarations emitted to the backend so far. -/
structure XctState where
  varmap : List (CpmVar × String)
  decls : List XctDecl
  deriving DecidableEq

/-- Cache-or-declare step of CPM_exact.solver_var for a base (non-view)
variable: return the cached handle if present, otherwise declare the
variable (integers switch to the string-encoded declaration above the
threshold) and cache its name as the handle. -/
def exact_solver_var_base (st : XctState) (v : CpmVar) :
    Except XctErr (String × XctState) :=
  match lookupVar st.varmap v with
  | some h => .ok (h, st)
  | none =>
      match v with
      | .boolVar n =>
          .ok (n, { varmap := st.varmap ++ [(v, n)], decls := st.decls ++ [.declNum n 0 1] })
      | .intVar n lb ub =>
          if max |lb| |ub| > bigThreshold then
            .ok (n, { varmap := st.varmap ++ [(v, n)],
                      decls := st.decls ++ [.declAsString n lb ub] })
          else
            .ok (n, { varmap := st.varmap ++ [(v, n)],
                      decls := st.decls ++ [.declNum n lb ub] })
      | .negView _ => .error .attributeError

/-- CPM_exact.solver_var.  For a NegBoolView the source executes
`return self.solver_var(cpm_var._bv).Not()`: the recursive call yields
the handle of the base variable, which in this interface is a plain
string, and a Python string has no `Not` attribute, so the call raises
AttributeError instead of producing a negated handle. -/
def exact_solver_var (st : XctState) (v : CpmVar) :
    Except XctErr (String × XctState) :=
  match v with
  | .negView b =>
      match exact_solver_var_base st (.boolVar b) with
      | .ok _ => .error .attributeError
      | .error e => .error e
  | .boolVar n => exact_solver_var_base st (.boolVar n)
  | .intVar n lb ub => exact_solver_var_base st (.intVar n lb ub)

/-- Declaration list of the state produced by a solver_var call, when
the call succeeded. -/
def resultDecls : Except XctErr (String × XctState) → Option (List XctDecl)
  | .ok p => some p.2.decls
  | .error _ => none

/-- Objective-related state of a CPM_exact session: the once-only flag,
the stored direction, the constraints posted so far, and the objective
coefficients and variables passed to the backend init call. -/
structure ExactSession where
  has_objective : Bool
  objective_minimize : Bool
  posted : List XctPrim
  objCoefs : List Int
  objVars : List String
  deriving DecidableEq

/-- CPM_exact.objective: the assert on `has_objective` runs before any
write; on success the direction is stored and the flat objective is
normalized with _make_numexpr against 0, with the coefficients negated
for a maximization so that the backend always minimizes.  (The upstream
flatten_objective pass is out of scope here: the input is already flat,
so it creates no extra constraints.) -/
def exact_objective (st : ExactSession) (expr : FlatLhs) (minimize : Bool) :
    Option XctErr × ExactSession :=
  if st.has_objective then (some .objectiveAlreadySet, st)
  else
    (none,
      { st with
        has_objective := true
        objective_minimize := minimize
        objCoefs :=
          if minimize then (make_numexpr expr (.num 0)).1
          else negCoefs (make_numexpr expr (.num 0)).1
        objVars := (make_numexpr expr (.num 0)).2.1 })

/-- Prelude of CPM_exact.solve: a session whose objective was never set
is initialised with the empty objective, permanently marking
`has_objective`. -/
def exact_solve_pre (st : ExactSession) : ExactSession :=
  if st.has_objective then st
  else { st with has_objective := true, objCoefs := [], objVars := [] }

/-- Prelude of CPM_exact.solveAll, identical to the solve prelude. -/
def exact_solveAll_pre (st : ExactSession) : ExactSession :=
  if st.has_objective then st
  else { st with has_objective := true, objCoefs := [], objVars := [] }

/-- Extractor-visible state: the stored value of each tracked user
variable and the stored objective value. -/
structure ExtractState where
  varVals : List (String × Option Int)
  objective_value : Option Int
  deriving DecidableEq

/-- Value refresh of every tracked variable from the last backend
solution. -/
def fillVals (f : String → Int) (vs : List (String × Option Int)) :
    List (String × Option Int) :=
  vs.map (fun p => (p.1, some (f p.1)))

/-- CPM_exact.getSolAndObj.  When the backend has no solution, the
stored objective value is cleared and False is returned before any
variable is touched.  Otherwise every tracked variable is refreshed
from the last solution, and the objective value is the last reported
upper bound `ub`, negated when the true direction was maximize.
(Values stay integers here: the Boolean coercion of the source only
changes the Python representation of 0/1.) -/
def getSolAndObj (hasSol : Bool) (f : String → Int) (ub : Int)
    (minimize : Bool) (st : ExtractState) : Bool × ExtractState :=
  if hasSol = false then (false, { st with objective_value := none })
  else
    (true,
      { varVals := fillVals f st.varVals,
        objective_value := some (if minimize then ub else -ub) })

/-- Terminal statuses of the CPMpy layer (the ExitStatus enum values
used by these two interfaces). -/
inductive ExitStatus
  | optimal
  | feasible
  | unsatisfiable
  | unknown
  deriving DecidableEq

/-- Failures of the solve-status translation. -/
inductive SolveErr
  | unknownStatusCode (code : Int)
  | unknownStatusName (name : String)
  deriving DecidableEq

/-- Status translation of CPM_exact.solve: raw code 0 means solved
(optimal with a solution, unsatisfiable without), raw code 2 means
unknown/timeout, and any other code raises NotImplementedError. -/
def exact_translate_status (code : Int) (hasSol : Bool) :
    Except SolveErr ExitStatus :=
  if code = 0 then .ok (if hasSol then .optimal else .unsatisfiable)
  else if code = 2 then .ok .unknown
  else .error (.unknownStatusCode code)

/-- Tail of CPM_exact.solve after runFull returned: translate the
status, then return getSolAndObj together with the exit status. -/
def exact_solve_tail (code : Int) (hasSol : Bool) (f : String → Int)
    (ub : Int) (minimize : Bool) (st : ExtractState) :
    Except SolveErr (ExitStatus × Bool × ExtractState) :=
  match exact_translate_status code hasSol with
  | .error e => .error e
  | .ok ex =>
      match getSolAndObj hasSol f ub minimize st with
      | (b, st2) => .ok (ex, b, st2)

/-- Nested backend expressions built by CPM_z3, restricted to the
constructors the verified claims touch. -/
inductive Z3Expr
  | boolV (name : String)
  | intV (name : String)
  | lit (n : Int)
  | neg (e : Z3Expr)
  | ge (a b : Z3Expr)
  | le (a b : Z3Expr)
  deriving DecidableEq

/-- Modelled from the spec: integer value of a nested numeric
expression under an assignment (the backend itself is an external
package; section 6 lists its expression constructors with the obvious
meaning). -/
def Z3Expr.evalI (ρ : String → Int) : Z3Expr → Int
  | .intV n => ρ n
  | .lit n => n
  | _ => 0

/-- Modelled from the spec: truth of a nested Boolean expression under
a Boolean/integer assignment. -/
def Z3Expr.evalB (β : String → Bool) (ρ : String → Int) : Z3Expr → Bool
  | .boolV n => β n
  | .neg e => !(Z3Expr.evalB β ρ e)
  | .ge a b => decide (Z3Expr.evalI ρ a ≥ Z3Expr.evalI ρ b)
  | .le a b => decide (Z3Expr.evalI ρ a ≤ Z3Expr.evalI ρ b)
  | _ => false

/-- Materializer state of a CPM_z3 session: the `_varmap` cache, the
user-variable set, and the constraints added to the backend solver. -/
structure Z3State where
  varmap : List (CpmVar × Z3Expr)
  user_vars : List CpmVar
  posted : List Z3Expr

/-- Cache-or-create step of CPM_z3.solver_var for a base variable: on a
miss the variable is recorded as a user variable, a fresh handle is
created, and an integer variable immediately posts its two inclusive
bound constraints to the solver. -/
def z3_solver_var_base (st : Z3State) (v : CpmVar) : Z3Expr × Z3State :=
  match lookupVar st.varmap v with
  | some h => (h, st)
  | none =>
      match v with
      | .boolVar n =>
          (Z3Expr.boolV n,
            { varmap := st.varmap ++ [(v, .boolV n)],
              user_vars := st.user_vars ++ [v],
              posted := st.posted })
      | .intVar n lb ub =>
          (Z3Expr.intV n,
            { varmap := st.varmap ++ [(v, .intV n)],
              user_vars := st.user_vars ++ [v],
              posted := st.posted ++ [.ge (.intV n) (.lit lb), .le (.intV n) (.lit ub)] })
      | .negView b => (Z3Expr.boolV b, st)

/-- CPM_z3.solver_var: a NegBoolView resolves to the negation of the
base handle and is never itself cached or declared. -/
def z3_solver_var (st : Z3State) (v : CpmVar) : Z3Expr × Z3State :=
  match v with
  | .negView b =>
      match z3_solver_var_base st (.boolVar b) with
      | (h, st2) => (Z3Expr.neg h, st2)
  | .boolVar n => z3_solver_var_base st (.boolVar n)
  | .intVar n lb ub => z3_solver_var_base st (.intVar n lb ub)

/-- Status translation of CPM_z3.solve: the three recognized result
names, anything else raises NotImplementedError. -/
def z3_translate_status (s : String) : Except SolveErr ExitStatus :=
  if s = "sat" then .ok .feasible
  else if s = "unsat" then .ok .unsatisfiable
  else if s = "unknown" then .ok .unknown
  else .error (.unknownStatusName s)

/-- Modelled from the spec: `_solve_return` of the shared solver
interface (a file outside src/) reports success exactly for the
solution-carrying terminal statuses. -/
def solveReturn : ExitStatus → Bool
  | .optimal => true
  | .feasible => true
  | _ => false

/-- Clearing of every tracked variable value, the no-solution branch of
CPM_z3.solve. -/
def clearVals (vs : List (String × Option Int)) : List (String × Option Int) :=
  vs.map (fun p => (p.1, (none : Option Int)))

/-- Value refresh of every tracked variable from a backend model that
may leave a variable uninterpreted. -/
def fillValsOpt (g : String → Option Int) (vs : List (String × Option Int)) :
    List (String × Option Int) :=
  vs.map (fun p => (p.1, g p.1))

/-- Tail of CPM_z3.solve after check() returned: translate the status;
with a solution every tracked value is read back from the model, and
without one every tracked value is set to None. -/
def z3_solve_tail (s : String) (g : String → Option Int)
    (vs : List (String × Option Int)) :
    Except SolveErr (ExitStatus × Bool × List (String × Option Int)) :=
  match z3_translate_status s with
  | .error e => .error e
  | .ok ex =>
      if solveReturn ex then .ok (ex, true, fillValsOpt g vs)
      else .ok (ex, false, clearVals vs)

/-- Negation of a flat numeric expression, used only to state the spec
sentence comparing minimize(expr) with maximize(-expr); its meaning is
certified by the evaluation lemma proved below. -/
def negFlat : FlatLhs → FlatLhs
  | .num n => .num (-n)
  | .var v => .wsum [-1] [.var v]
  | .sum args => .wsum (args.map (fun _ => (-1 : Int))) args
  | .wsum cs xs => .wsum (negCoefs cs) xs
  | .sub a b => .wsum [-1, 1] [.var a, .var b]

/-- Concrete integer assignment used by the witnesses. -/
def envA : String → Int :=
  fun v => if v = "b" then 1 else if v = "x" then 3 else if v = "y" then 3 else 5

/-- Concrete Boolean assignment used by the witnesses. -/
def envB : String → Bool := fun _ => false

/-- Concrete all-zero assignment used by the witnesses. -/
def zeroEnv : String → Int := fun _ => 0

/-- Concrete backend model used by the witnesses. -/
def modelA : String → Option Int := fun _ => some 1

/-- Concrete extractor state used by the witnesses and the
counterexample: one tracked variable with a stale value. -/
def extractStX : ExtractState :=
  { varVals := [("x", some 3)], objective_value := some 9 }

/-- Concrete session that already holds an objective. -/
def sessionWithObj : ExactSession :=
  { has_objective := true, objective_minimize := true, posted := [],
    objCoefs := [1], objVars := ["x"] }

/-- Concrete fresh session without an objective. -/
def freshSession : ExactSession :=
  { has_objective := false, objective_minimize := true, posted := [],
    objCoefs := [], objVars := [] }

/-- Concrete empty materializer state of the Exact interface. -/
def xctState0 : XctState := { varmap := [], decls := [] }

/-- Concrete empty materializer state of the z3 interface. -/
def z3State0 : Z3State := { varmap := [], user_vars := [], posted := [] }

/-- Concrete objective expression used by the witnesses. -/
def objExprW : FlatLhs := .wsum [2] [.var "x"]

/-! Helper lemmas. -/

theorem linval_neg (cs : List Int) (vs : List String) (ρ : String → Int) :
    linval (negCoefs cs) vs ρ = -linval cs vs ρ := by
  induction cs generalizing vs with
  | nil => simp [negCoefs, linval]
  | cons c cs ih =>
      cases vs with
      | nil => simp [negCoefs, linval]
      | cons v vs =>
          simp only [negCoefs, List.map_cons, linval] at *
          rw [ih]
          ring

theorem linval_append (cs1 : List Int) (vs1 : List String) (cs2 : List Int)
    (vs2 : List String) (ρ : String → Int) (h : cs1.length = vs1.length) :
    linval (cs1 ++ cs2) (vs1 ++ vs2) ρ = linval cs1 vs1 ρ + linval cs2 vs2 ρ := by
  induction cs1 generalizing vs1 with
  | nil =>
      cases vs1 with
      | nil => simp [linval]
      | cons v vs => simp at h
  | cons c cs ih =>
      cases vs1 with
      | nil => simp at h
      | cons v vs =>
          simp only [List.cons_append, linval, List.append_eq]
          rw [ih vs (by simpa using h)]
          ring

theorem sumParts_len (args : List Atom) :
    (sumParts args).1.length = (sumParts args).2.1.length := by
  induction args with
  | nil => simp [sumParts]
  | cons a rest ih =>
      cases a <;> simp [sumParts, ih]

theorem wsumParts_len (l : List (Int × Atom)) :
    (wsumParts l).1.length = (wsumParts l).2.1.length := by
  induction l with
  | nil => simp [wsumParts]
  | cons p rest ih =>
      obtain ⟨c, a⟩ := p
      cases a <;> simp [wsumParts, ih]

theorem rhsParts_len (rhs : Atom) :
    (rhsParts rhs).1.length = (rhsParts rhs).2.1.length := by
  cases rhs <;> simp [rhsParts]

theorem sumParts_linval (args : List Atom) (ρ : String → Int) :
    linval (sumParts args).1 (sumParts args).2.1 ρ
      = (args.map (Atom.eval ρ)).sum + (sumParts args).2.2 := by
  induction args with
  | nil => simp [sumParts, linval]
  | cons a rest ih =>
      cases a with
      | num n => simp [sumParts, Atom.eval, ih]; ring
      | var x => simp [sumParts, linval, Atom.eval, ih]; ring

theorem wsumParts_linval (l : List (Int × Atom)) (ρ : String → Int) :
    linval (wsumParts l).1 (wsumParts l).2.1 ρ
      = (l.map (fun p => p.1 * Atom.eval ρ p.2)).sum + (wsumParts l).2.2 := by
  induction l with
  | nil => simp [wsumParts, linval]
  | cons p rest ih =>
      obtain ⟨c, a⟩ := p
      cases a with
      | num n => simp [wsumParts, Atom.eval, ih]; ring
      | var x => simp [wsumParts, linval, Atom.eval, ih]; ring

theorem lhsParts_linval (l : FlatLhs) (ρ : String → Int) :
    linval (lhsParts l).1 (lhsParts l).2.1 ρ
      = FlatLhs.eval ρ l + (lhsParts l).2.2 := by
  cases l with
  | num n => simp [lhsParts, linval, FlatLhs.eval]
  | var v => simp [lhsParts, linval, FlatLhs.eval]
  | sum args => simpa [lhsParts, FlatLhs.eval] using sumParts_linval args ρ
  | wsum cs xs => simpa [lhsParts, FlatLhs.eval] using wsumParts_linval (cs.zip xs) ρ
  | sub a b =>
      simp only [lhsParts, linval, FlatLhs.eval]
      ring

theorem rhsParts_linval (rhs : Atom) (ρ : String → Int) :
    linval (rhsParts rhs).1 (rhsParts rhs).2.1 ρ
      = (rhsParts rhs).2.2 - Atom.eval ρ rhs := by
  cases rhs with
  | num n => simp [rhsParts, linval, Atom.eval]
  | var v =>
      simp only [rhsParts, linval, Atom.eval]
      ring

theorem make_numexpr_spec (lhs : FlatLhs) (rhs : Atom) (ρ : String → Int) :
    linval (make_numexpr lhs rhs).1 (make_numexpr lhs rhs).2.1 ρ
      = FlatLhs.eval ρ lhs - Atom.eval ρ rhs + (make_numexpr lhs rhs).2.2 := by
  simp only [make_numexpr]
  rw [linval_append _ _ _ _ _ (rhsParts_len rhs), rhsParts_linval, lhsParts_linval]
  ring

theorem negCoefs_ne_nil {cs : List Int} (h : cs ≠ []) : negCoefs cs ≠ [] := by
  cases cs with
  | nil => exact absurd rfl h
  | cons c cs => simp [negCoefs]

theorem negCoefs_negCoefs (cs : List Int) : negCoefs (negCoefs cs) = cs := by
  induction cs with
  | nil => simp [negCoefs]
  | cons c cs ih => simp only [negCoefs, List.map_cons] at *; simp [ih]

theorem add_constr_some (cs : List Int) (vs : List String) (uselb : Bool) (lb : Int)
    (useub : Bool) (ub : Int) (h : cs ≠ []) :
    ∃ b, add_xct_constr cs vs uselb lb useub ub = some (.constr b cs vs uselb lb useub ub) := by
  cases cs with
  | nil => exact absurd rfl h
  | cons c cs => exact ⟨_, rfl⟩

theorem add_right_some (head : String) (cs : List Int) (vs : List String) (rhs : Int)
    (h : cs ≠ []) :
    ∃ b, add_xct_reif_right head cs vs rhs = some (.reifRight b head cs vs rhs) := by
  cases cs with
  | nil => exact absurd rfl h
  | cons c cs => exact ⟨_, rfl⟩

theorem add_left_some (head : String) (cs : List Int) (vs : List String) (rhs : Int)
    (h : cs ≠ []) :
    ∃ b, add_xct_reif_left head cs vs rhs = some (.reifLeft b head cs vs rhs) := by
  cases cs with
  | nil => exact absurd rfl h
  | cons c cs => exact ⟨_, rfl⟩

theorem foldl_maxAbs_lt (k : Int) (cs : List Int) (c : Int) :
    k < cs.foldl (fun m x => max m |x|) c ↔ k < c ∨ ∃ x ∈ cs, k < |x| := by
  induction cs generalizing c with
  | nil => simp
  | cons a as ih =>
      simp only [List.foldl_cons, ih, lt_max_iff, List.mem_cons]
      constructor
      · rintro ((h | h) | ⟨x, hx, hk⟩)
        · exact Or.inl h
        · exact Or.inr ⟨a, Or.inl rfl, h⟩
        · exact Or.inr ⟨x, Or.inr hx, hk⟩
      · rintro (h | ⟨x, (rfl | hx), hk⟩)
        · exact Or.inl (Or.inl h)
        · exact Or.inl (Or.inr hk)
        · exact Or.inr ⟨x, hx, hk⟩

theorem coefMaxAbs_lt (k : Int) (cs : List Int) (m : Int) (h : coefMaxAbs cs = some m) :
    k < m ↔ ∃ x ∈ cs, k < |x| := by
  cases cs with
  | nil => simp [coefMaxAbs] at h
  | cons c rest =>
      simp only [coefMaxAbs, Option.some.injEq] at h
      subst h
      simp only [foldl_maxAbs_lt, List.mem_cons]
      constructor
      · rintro (h | ⟨x, hx, hk⟩)
        · exact ⟨c, Or.inl rfl, h⟩
        · exact ⟨x, Or.inr hx, hk⟩
      · rintro ⟨x, (rfl | hx), hk⟩
        · exact Or.inl hk
        · exact Or.inr ⟨x, hx, hk⟩

theorem bigThreshold_pos : (0 : Int) < bigThreshold := by norm_num [bigThreshold]

theorem sumParts_cons_num (n : Int) (l : List Atom) :
    sumParts (.num n :: l)
      = ((sumParts l).1, (sumParts l).2.1, (sumParts l).2.2 - n) := rfl

theorem sumParts_cons_var (x : String) (l : List Atom) :
    sumParts (.var x :: l)
      = (1 :: (sumParts l).1, x :: (sumParts l).2.1, (sumParts l).2.2) := rfl

theorem wsumParts_cons_num (c n : Int) (l : List (Int × Atom)) :
    wsumParts ((c, .num n) :: l)
      = ((wsumParts l).1, (wsumParts l).2.1, (wsumParts l).2.2 - c * n) := rfl

theorem wsumParts_cons_var (c : Int) (x : String) (l : List (Int × Atom)) :
    wsumParts ((c, .var x) :: l)
      = (c :: (wsumParts l).1, x :: (wsumParts l).2.1, (wsumParts l).2.2) := rfl

theorem wsumParts_negOnes (args : List Atom) :
    wsumParts ((args.map (fun _ => (-1 : Int))).zip args)
      = (negCoefs (sumParts args).1, (sumParts args).2.1, -(sumParts args).2.2) := by
  induction args with
  | nil => simp [wsumParts, sumParts, negCoefs]
  | cons a rest ih =>
      cases a with
      | num n =>
          rw [List.map_cons, List.zip_cons_cons, wsumParts_cons_num, ih,
            sumParts_cons_num]
          refine congrArg _ (congrArg _ ?_)
          ring
      | var x =>
          rw [List.map_cons, List.zip_cons_cons, wsumParts_cons_var, ih,
            sumParts_cons_var]
          rfl

theorem wsumParts_negCoefs (cs : List Int) (xs : List Atom) :
    wsumParts ((negCoefs cs).zip xs)
      = (negCoefs (wsumParts (cs.zip xs)).1, (wsumParts (cs.zip xs)).2.1,
         -(wsumParts (cs.zip xs)).2.2) := by
  induction cs generalizing xs with
  | nil => simp [negCoefs, wsumParts]
  | cons c rest ih =>
      cases xs with
      | nil => simp [negCoefs, wsumParts]
      | cons x xs =>
          cases x with
          | num n =>
              have hmap : negCoefs (c :: rest) = -c :: negCoefs rest := rfl
              rw [hmap, List.zip_cons_cons, List.zip_cons_cons, wsumParts_cons_num,
                wsumParts_cons_num, ih xs]
              refine congrArg _ (congrArg _ ?_)
              ring
          | var y =>
              have hmap : negCoefs (c :: rest) = -c :: negCoefs rest := rfl
              rw [hmap, List.zip_cons_cons, List.zip_cons_cons, wsumParts_cons_var,
                wsumParts_cons_var, ih xs]
              rfl

theorem negFlat_numexpr (e : FlatLhs) :
    make_numexpr (negFlat e) (.num 0)
      = (negCoefs (make_numexpr e (.num 0)).1, (make_numexpr e (.num 0)).2.1,
         -(make_numexpr e (.num 0)).2.2) := by
  cases e with
  | num n => simp [make_numexpr, negFlat, lhsParts, rhsParts, negCoefs]
  | var v => simp [make_numexpr, negFlat, lhsParts, rhsParts, wsumParts, negCoefs]
  | sum args =>
      simp only [make_numexpr, negFlat, lhsParts, wsumParts_negOnes]
      simp [rhsParts]
  | wsum cs xs =>
      simp only [make_numexpr, negFlat, lhsParts, wsumParts_negCoefs]
      simp [rhsParts]
  | sub a b => simp [make_numexpr, negFlat, lhsParts, rhsParts, wsumParts, negCoefs]

theorem eval_zip_negOnes (args : List Atom) (ρ : String → Int) :
    (((args.map (fun _ => (-1 : Int))).zip args).map (fun p => p.1 * Atom.eval ρ p.2)).sum
      = -((args.map (Atom.eval ρ)).sum) := by
  induction args with
  | nil => simp
  | cons a rest ih =>
      rw [List.map_cons, List.zip_cons_cons, List.map_cons, List.sum_cons, ih,
        List.map_cons, List.sum_cons]
      ring

theorem eval_zip_negCoefs (cs : List Int) (xs : List Atom) (ρ : String → Int) :
    (((negCoefs cs).zip xs).map (fun p => p.1 * Atom.eval ρ p.2)).sum
      = -(((cs.zip xs).map (fun p => p.1 * Atom.eval ρ p.2)).sum) := by
  induction cs generalizing xs with
  | nil => simp [negCoefs]
  | cons c rest ih =>
      cases xs with
      | nil => simp [negCoefs]
      | cons x xs =>
          have hmap : negCoefs (c :: rest) = -c :: negCoefs rest := rfl
          rw [hmap, List.zip_cons_cons, List.zip_cons_cons, List.map_cons, List.map_cons,
            List.sum_cons, List.sum_cons, ih xs]
          ring

theorem negFlat_eval (e : FlatLhs) (ρ : String → Int) :
    FlatLhs.eval ρ (negFlat e) = -FlatLhs.eval ρ e := by
  cases e with
  | num n => simp [negFlat, FlatLhs.eval]
  | var v => simp [negFlat, FlatLhs.eval, Atom.eval]
  | sum args => simpa [negFlat, FlatLhs.eval] using eval_zip_negOnes args ρ
  | wsum cs xs => simpa [negFlat, FlatLhs.eval] using eval_zip_negCoefs cs xs ρ
  | sub a b =>
      simp only [negFlat, FlatLhs.eval, List.zip_cons_cons, List.map_cons, List.zip_nil_right,
        List.map_nil, List.sum_cons, List.sum_nil, Atom.eval]
      ring

/-! Claim theorems. -/

/-- C3: the claim says that on both backends the handle of a negated
view is the logical negation of the base handle.  On the nested backend
this holds, but on the flat backend the handle of the base variable is
a plain string, so the `.Not()` call of CPM_exact.solver_var raises
AttributeError: evaluating the embedded solver_var of exact.py on a
negated view produces that error instead of a negated handle. -/
theorem exact_negview_handle_attribute_error :
    exact_solver_var xctState0 (CpmVar.negView ("b")) = .error XctErr.attributeError := rfl

/-- C5: once a session holds an objective, a second objective() call
fails with the objective-already-set error and returns the session
exactly as it was: the check precedes every write, so the direction
flag, the stored backend objective and the posted constraints are all
unchanged. -/
theorem objective_second_call_fails_no_mutation
    (st : ExactSession) (e : FlatLhs) (m : Bool) (h : st.has_objective = true) :
    exact_objective st e m = (some XctErr.objectiveAlreadySet, st) := by
  simp [exact_objective, h]

/-- Witness for C5 at a concrete session that already has an objective. -/
theorem objective_second_call_witness :
    exact_objective sessionWithObj (FlatLhs.var ("y")) false
      = (some XctErr.objectiveAlreadySet, sessionWithObj) :=
  objective_second_call_fails_no_mutation sessionWithObj (FlatLhs.var ("y")) false rfl

/-- C7: when the backend reports no solution, getSolAndObj returns the
failure flag and clears only the stored objective value, leaving every
tracked variable value exactly as it was. -/
theorem extract_no_solution_frame (f : String → Int) (u : Int) (m : Bool)
    (st : ExtractState) :
    getSolAndObj false f u m st = (false, { st with objective_value := none }) := by
  simp [getSolAndObj]

/-- C9: a solve or solveAll call on a session without an objective
permanently marks the session as having one (to initialise the backend
with the empty objective), so a later objective() call fails with the
objective-already-set error even though no objective was ever posted. -/
theorem solve_marks_objective_set
    (st : ExactSession) (e : FlatLhs) (m : Bool) (h : st.has_objective = false) :
    (exact_solve_pre st).has_objective = true
    ∧ (exact_solveAll_pre st).has_objective = true
    ∧ exact_objective (exact_solve_pre st) e m
        = (some XctErr.objectiveAlreadySet, exact_solve_pre st)
    ∧ exact_objective (exact_solveAll_pre st) e m
        = (some XctErr.objectiveAlreadySet, exact_solveAll_pre st) := by
  refine ⟨?_, ?_, ?_, ?_⟩ <;>
    simp [exact_solve_pre, exact_solveAll_pre, exact_objective, h]

/-- Witness for C9 at a concrete fresh session. -/
theorem solve_marks_objective_witness :
    (exact_solve_pre freshSession).has_objective = true
    ∧ (exact_solveAll_pre freshSession).has_objective = true
    ∧ exact_objective (exact_solve_pre freshSession) (FlatLhs.var ("x")) true
        = (some XctErr.objectiveAlreadySet, exact_solve_pre freshSession)
    ∧ exact_objective (exact_solveAll_pre freshSession) (FlatLhs.var ("x")) true
        = (some XctErr.objectiveAlreadySet, exact_solveAll_pre freshSession) :=
  solve_marks_objective_set freshSession (FlatLhs.var ("x")) true rfl

/-- C8, counterexample to the claim as stated: on the flat backend a
raw status 2 without a solution is translated to UNKNOWN, yet the
tracked variable value 3 of the variable x is left in place rather than
cleared, so in-memory variable values are not cleared on this path. -/
theorem unknown_status_values_not_cleared_cex :
    exact_solve_tail 2 false zeroEnv 0 true extractStX
      = .ok (ExitStatus.unknown, false,
          { varVals := [("x", some 3)], objective_value := none })
    ∧ [("x", (some 3 : Option Int))] ≠ clearVals [("x", (some 3 : Option Int))] := by
  refine ⟨rfl, by decide⟩

/-- C8, amended: a backend-reported unknown/timeout status (raw code 2
on the flat backend, the unknown result on the nested backend) is not
raised as an error but translated to the UNKNOWN exit status and
reported as failure; on the nested backend all in-memory variable
values are cleared, while on the flat backend only the stored objective
value is cleared (when no solution is present) and variable values are
left unchanged; any unrecognized raw status raises the fatal
unknown-backend-status error. -/
theorem unknown_status_translation_amended
    (hasSol : Bool) (f : String → Int) (u : Int) (m : Bool) (es : ExtractState)
    (g : String → Option Int) (vs : List (String × Option Int))
    (n : Int) (s : String)
    (hn0 : n ≠ 0) (hn2 : n ≠ 2)
    (hs1 : s ≠ "sat") (hs2 : s ≠ "unsat") (hs3 : s ≠ "unknown") :
    exact_translate_status 2 hasSol = .ok ExitStatus.unknown
    ∧ z3_translate_status ("unknown") = .ok ExitStatus.unknown
    ∧ z3_solve_tail ("unknown") g vs = .ok (ExitStatus.unknown, false, clearVals vs)
    ∧ exact_solve_tail 2 false f u m es
        = .ok (ExitStatus.unknown, false,
            { varVals := es.varVals, objective_value := none })
    ∧ exact_translate_status n hasSol = .error (SolveErr.unknownStatusCode n)
    ∧ z3_translate_status s = .error (SolveErr.unknownStatusName s) := by
  refine ⟨rfl, rfl, rfl, ?_, ?_, ?_⟩
  · simp [exact_solve_tail, exact_translate_status, getSolAndObj]
  · simp [exact_translate_status, hn0, hn2]
  · simp [z3_translate_status, hs1, hs2, hs3]

/-- Witness for the amended C8 at concrete statuses and states. -/
theorem unknown_status_translation_witness :
    exact_translate_status 2 false = .ok ExitStatus.unknown
    ∧ z3_translate_status ("unknown") = .ok ExitStatus.unknown
    ∧ z3_solve_tail ("unknown") modelA [("x", (some 3 : Option Int))]
        = .ok (ExitStatus.unknown, false, clearVals [("x", (some 3 : Option Int))])
    ∧ exact_solve_tail 2 false zeroEnv 0 true extractStX
        = .ok (ExitStatus.unknown, false,
            { varVals := extractStX.varVals, objective_value := none })
    ∧ exact_translate_status 5 false = .error (SolveErr.unknownStatusCode 5)
    ∧ z3_translate_status ("weird") = .error (SolveErr.unknownStatusName ("weird")) :=
  unknown_status_translation_amended false zeroEnv 0 true extractStX modelA
    [("x", (some 3 : Option Int))] 5 ("weird")
    (by decide) (by decide) (by decide) (by decide) (by decide)

/-- C10: the first materialization of an integer variable on the nested
backend immediately posts its two inclusive bound constraints, and any
assignment satisfying every posted constraint of any later superset
keeps the variable inside its declared bounds. -/
theorem z3_intvar_bounds_posted
    (st : Z3State) (n : String) (lb ub : Int) (P : List Z3Expr)
    (β : String → Bool) (ρ : String → Int)
    (hnew : lookupVar st.varmap (CpmVar.intVar n lb ub) = none)
    (hsub : (z3_solver_var st (.intVar n lb ub)).2.posted ⊆ P)
    (hsat : P.all (Z3Expr.evalB β ρ) = true) :
    (z3_solver_var st (.intVar n lb ub)).2.posted
      = st.posted ++ [Z3Expr.ge (.intV n) (.lit lb), Z3Expr.le (.intV n) (.lit ub)]
    ∧ lb ≤ ρ n ∧ ρ n ≤ ub := by
  have hpost : (z3_solver_var st (.intVar n lb ub)).2.posted
      = st.posted ++ [Z3Expr.ge (.intV n) (.lit lb), Z3Expr.le (.intV n) (.lit ub)] := by
    simp [z3_solver_var, z3_solver_var_base, hnew]
  refine ⟨hpost, ?_, ?_⟩
  · have hmem : Z3Expr.ge (.intV n) (.lit lb)
        ∈ (z3_solver_var st (.intVar n lb ub)).2.posted := by
      rw [hpost]; simp
    have hge := List.all_eq_true.mp hsat _ (hsub hmem)
    simpa [Z3Expr.evalB, Z3Expr.evalI] using hge
  · have hmem : Z3Expr.le (.intV n) (.lit ub)
        ∈ (z3_solver_var st (.intVar n lb ub)).2.posted := by
      rw [hpost]; simp
    have hle := List.all_eq_true.mp hsat _ (hsub hmem)
    simpa [Z3Expr.evalB, Z3Expr.evalI] using hle

/-- Witness for C10 at a concrete fresh session and assignment. -/
theorem z3_intvar_bounds_witness :
    (z3_solver_var z3State0 (CpmVar.intVar ("x") 0 5)).2.posted
      = z3State0.posted ++ [Z3Expr.ge (.intV ("x")) (.lit 0), Z3Expr.le (.intV ("x")) (.lit 5)]
    ∧ (0 : Int) ≤ envA ("x") ∧ envA ("x") ≤ 5 :=
  z3_intvar_bounds_posted z3State0 ("x") 0 5
    [Z3Expr.ge (.intV ("x")) (.lit 0), Z3Expr.le (.intV ("x")) (.lit 5)]
    envB envA rfl (fun _ h => h) (by decide)

/-- C6: a maximize objective is posted with negated coefficients
(reducing maximize to minimize) and the extractor reports the negation
of the last backend upper bound; minimize(expr) and maximize(-expr)
post identical coefficient and variable lists, extract identical
variable values from the same backend solution, and report objective
values that are exact negations of each other.  The final equation
certifies that negFlat is the negation of the expression. -/
theorem maximize_negates_and_reduces_to_minimize
    (st : ExactSession) (e : FlatLhs) (u : Int) (f : String → Int)
    (es : ExtractState) (ρ : String → Int) (h : st.has_objective = false) :
    (exact_objective st e false).2.objCoefs = negCoefs (make_numexpr e (.num 0)).1
    ∧ (exact_objective st (negFlat e) false).2.objCoefs
        = (exact_objective st e true).2.objCoefs
    ∧ (exact_objective st (negFlat e) false).2.objVars
        = (exact_objective st e true).2.objVars
    ∧ (getSolAndObj true f u false es).2.objective_value = some (-u)
    ∧ (getSolAndObj true f u true es).2.objective_value = some u
    ∧ (getSolAndObj true f u false es).2.varVals
        = (getSolAndObj true f u true es).2.varVals
    ∧ FlatLhs.eval ρ (negFlat e) = -FlatLhs.eval ρ e := by
  refine ⟨?_, ?_, ?_, ?_, ?_, ?_, negFlat_eval e ρ⟩
  · simp [exact_objective, h]
  · simp [exact_objective, h, negFlat_numexpr, negCoefs_negCoefs]
  · simp [exact_objective, h, negFlat_numexpr]
  · simp [getSolAndObj]
  · simp [getSolAndObj]
  · simp [getSolAndObj]

/-- Witness for C6 at a concrete session, objective and solution. -/
theorem maximize_negates_witness :
    (exact_objective freshSession objExprW false).2.objCoefs
      = negCoefs (make_numexpr objExprW (.num 0)).1
    ∧ (exact_objective freshSession (negFlat objExprW) false).2.objCoefs
        = (exact_objective freshSession objExprW true).2.objCoefs
    ∧ (exact_objective freshSession (negFlat objExprW) false).2.objVars
        = (exact_objective freshSession objExprW true).2.objVars
    ∧ (getSolAndObj true envA 7 false extractStX).2.objective_value = some (-7)
    ∧ (getSolAndObj true envA 7 true extractStX).2.objective_value = some 7
    ∧ (getSolAndObj true envA 7 false extractStX).2.varVals
        = (getSolAndObj true envA 7 true extractStX).2.varVals
    ∧ FlatLhs.eval envA (negFlat objExprW) = -FlatLhs.eval envA objExprW :=
  maximize_negates_and_reduces_to_minimize freshSession objExprW 7 envA extractStX envA rfl

/-- C2: a comparison with operator in le/ge/eq normalizes to one
coefficients/variables/bound triple and emits exactly one
bounded-linear primitive whose bound quadruple follows the operator
table, and that primitive accepts exactly the integer assignments
satisfying the original comparison. -/
theorem comparison_compile_quad_and_semantics
    (op : CmpOp) (lhs : FlatLhs) (rhs : Atom) (ρ : String → Int)
    (hne : (make_numexpr lhs rhs).1 ≠ []) :
    (post_comparison op lhs rhs).bind XctPrim.quad
      = some (specCompQuad op (make_numexpr lhs rhs).2.2)
    ∧ (post_comparison op lhs rhs).map XctPrim.linParts
      = some ((make_numexpr lhs rhs).1, (make_numexpr lhs rhs).2.1)
    ∧ (compiledSat ρ (post_comparison op lhs rhs)
      ↔ cmpSem op (FlatLhs.eval ρ lhs) (Atom.eval ρ rhs)) := by
  have hspec := make_numexpr_spec lhs rhs ρ
  rcases hmk : make_numexpr lhs rhs with ⟨cs, vs, r⟩
  rw [hmk] at hspec hne
  simp only at hspec hne
  cases op with
  | le =>
      obtain ⟨b, hb⟩ := add_constr_some cs vs false 0 true r hne
      have hpc : post_comparison .le lhs rhs = some (.constr b cs vs false 0 true r) := by
        simp only [post_comparison, hmk]
        exact hb
      refine ⟨?_, ?_, ?_⟩
      · simp [hpc, XctPrim.quad, specCompQuad]
      · simp [hpc, XctPrim.linParts]
      · rw [hpc]
        simp only [compiledSat, XctPrim.sat, cmpSem]
        simp only [Bool.false_eq_true, false_implies, true_and, eq_self_iff_true,
          true_implies, ge_iff_le]
        omega
  | ge =>
      obtain ⟨b, hb⟩ := add_constr_some cs vs true r false 0 hne
      have hpc : post_comparison .ge lhs rhs = some (.constr b cs vs true r false 0) := by
        simp only [post_comparison, hmk]
        exact hb
      refine ⟨?_, ?_, ?_⟩
      · simp [hpc, XctPrim.quad, specCompQuad]
      · simp [hpc, XctPrim.linParts]
      · rw [hpc]
        simp only [compiledSat, XctPrim.sat, cmpSem]
        simp only [Bool.false_eq_true, false_implies, and_true, eq_self_iff_true,
          true_implies, ge_iff_le]
        omega
  | eq =>
      obtain ⟨b, hb⟩ := add_constr_some cs vs true r true r hne
      have hpc : post_comparison .eq lhs rhs = some (.constr b cs vs true r true r) := by
        simp only [post_comparison, hmk]
        exact hb
      refine ⟨?_, ?_, ?_⟩
      · simp [hpc, XctPrim.quad, specCompQuad]
      · simp [hpc, XctPrim.linParts]
      · rw [hpc]
        simp only [compiledSat, XctPrim.sat, cmpSem]
        simp only [ge_iff_le, forall_const]
        omega

/-- Witness for C2 on the concrete comparison that x is at most 4. -/
theorem comparison_compile_witness :
    (post_comparison CmpOp.le (FlatLhs.var ("x")) (Atom.num 4)).bind XctPrim.quad
      = some (specCompQuad CmpOp.le (make_numexpr (FlatLhs.var ("x")) (Atom.num 4)).2.2)
    ∧ (post_comparison CmpOp.le (FlatLhs.var ("x")) (Atom.num 4)).map XctPrim.linParts
      = some ((make_numexpr (FlatLhs.var ("x")) (Atom.num 4)).1,
          (make_numexpr (FlatLhs.var ("x")) (Atom.num 4)).2.1)
    ∧ (compiledSat envA (post_comparison CmpOp.le (FlatLhs.var ("x")) (Atom.num 4))
      ↔ cmpSem CmpOp.le (FlatLhs.eval envA (FlatLhs.var ("x")))
          (Atom.eval envA (Atom.num 4))) :=
  comparison_compile_quad_and_semantics CmpOp.le (FlatLhs.var ("x")) (Atom.num 4) envA
    (by decide)

theorem condSem_true (b : Int) : condSem true b = (b = 1) := rfl

theorem condSem_false (b : Int) : condSem false b = (b = 0) := rfl

/-- C1: for an implication whose condition is a Boolean variable or its
negated view and whose right side is a le/ge/eq comparison over integer
linear expressions, the indicator compiler emits exactly the primitives
of the six-case table of section 4.3, and the emitted primitives accept
exactly the condition-value/assignment pairs satisfying the original
implication; the exhaustive equality check over small boxes is an
instance of the equivalence, which holds for every integer assignment
and both condition values. -/
theorem indicator_compile_matches_table_and_semantics
    (positive : Bool) (head : String) (op : CmpOp) (lhs : FlatLhs) (rhs : Atom)
    (ρ : String → Int)
    (hv : validIndicatorLhs lhs = true)
    (hne : (make_numexpr lhs rhs).1 ≠ [])
    (hb : ρ head = 0 ∨ ρ head = 1) :
    (post_indicator positive head op lhs rhs).map (List.map XctPrim.toSpec)
      = some (specIndicatorTable positive head op (make_numexpr lhs rhs).1
          (make_numexpr lhs rhs).2.1 (make_numexpr lhs rhs).2.2)
    ∧ (compiledIndicatorSat ρ (post_indicator positive head op lhs rhs)
      ↔ (condSem positive (ρ head) →
          cmpSem op (FlatLhs.eval ρ lhs) (Atom.eval ρ rhs))) := by
  have hspec := make_numexpr_spec lhs rhs ρ
  have hpi : post_indicator positive head op lhs rhs
      = indicator_emit positive head op (make_numexpr lhs rhs).1
          (make_numexpr lhs rhs).2.1 (make_numexpr lhs rhs).2.2 := by
    simp [post_indicator, hv]
  rw [hpi]
  rcases hmk : make_numexpr lhs rhs with ⟨cs, vs, r⟩
  rw [hmk] at hspec hne
  simp only at hspec hne ⊢
  have hnegv := linval_neg cs vs ρ
  cases op with
  | eq =>
      cases positive with
      | true =>
          obtain ⟨b1, h1⟩ := add_right_some head cs vs r hne
          obtain ⟨b2, h2⟩ := add_right_some head (negCoefs cs) vs (-r) (negCoefs_ne_nil hne)
          have he : indicator_emit true head .eq cs vs r
              = some [XctPrim.reifRight b1 head cs vs r,
                      XctPrim.reifRight b2 head (negCoefs cs) vs (-r)] := by
            simp [indicator_emit, h1, h2]
          rw [he]
          constructor
          · simp [XctPrim.toSpec, specIndicatorTable]
          · simp only [compiledIndicatorSat, List.mem_cons, List.not_mem_nil, or_false,
              forall_eq_or_imp, forall_eq, XctPrim.sat, condSem_true, cmpSem, hnegv,
              ge_iff_le]
            omega
      | false =>
          obtain ⟨b1, h1⟩ := add_left_some head cs vs (1 + r) hne
          obtain ⟨b2, h2⟩ := add_left_some head (negCoefs cs) vs (1 - r) (negCoefs_ne_nil hne)
          have he : indicator_emit false head .eq cs vs r
              = some [XctPrim.reifLeft b1 head cs vs (1 + r),
                      XctPrim.reifLeft b2 head (negCoefs cs) vs (1 - r)] := by
            simp [indicator_emit, h1, h2]
          rw [he]
          constructor
          · simp [XctPrim.toSpec, specIndicatorTable, Int.add_comm]
          · simp only [compiledIndicatorSat, List.mem_cons, List.not_mem_nil, or_false,
              forall_eq_or_imp, forall_eq, XctPrim.sat, condSem_false, cmpSem, hnegv,
              ge_iff_le]
            omega
  | ge =>
      cases positive with
      | true =>
          obtain ⟨b1, h1⟩ := add_right_some head cs vs r hne
          have he : indicator_emit true head .ge cs vs r
              = some [XctPrim.reifRight b1 head cs vs r] := by
            simp [indicator_emit, h1]
          rw [he]
          constructor
          · simp [XctPrim.toSpec, specIndicatorTable]
          · simp only [compiledIndicatorSat, List.mem_cons, List.not_mem_nil, or_false,
              forall_eq, XctPrim.sat, condSem_true, cmpSem, ge_iff_le]
            omega
      | false =>
          obtain ⟨b1, h1⟩ := add_left_some head (negCoefs cs) vs (1 - r) (negCoefs_ne_nil hne)
          have he : indicator_emit false head .ge cs vs r
              = some [XctPrim.reifLeft b1 head (negCoefs cs) vs (1 - r)] := by
            simp [indicator_emit, h1]
          rw [he]
          constructor
          · simp [XctPrim.toSpec, specIndicatorTable]
          · simp only [compiledIndicatorSat, List.mem_cons, List.not_mem_nil, or_false,
              forall_eq, XctPrim.sat, condSem_false, cmpSem, hnegv, ge_iff_le]
            omega
  | le =>
      cases positive with
      | true =>
          obtain ⟨b1, h1⟩ := add_right_some head (negCoefs cs) vs (-r) (negCoefs_ne_nil hne)
          have he : indicator_emit true head .le cs vs r
              = some [XctPrim.reifRight b1 head (negCoefs cs) vs (-r)] := by
            simp [indicator_emit, h1]
          rw [he]
          constructor
          · simp [XctPrim.toSpec, specIndicatorTable]
          · simp only [compiledIndicatorSat, List.mem_cons, List.not_mem_nil, or_false,
              forall_eq, XctPrim.sat, condSem_true, cmpSem, hnegv, ge_iff_le]
            omega
      | false =>
          obtain ⟨b1, h1⟩ := add_left_some head cs vs (1 + r) hne
          have he : indicator_emit false head .le cs vs r
              = some [XctPrim.reifLeft b1 head cs vs (1 + r)] := by
            simp [indicator_emit, h1]
          rw [he]
          constructor
          · simp [XctPrim.toSpec, specIndicatorTable]
          · simp only [compiledIndicatorSat, List.mem_cons, List.not_mem_nil, or_false,
              forall_eq, XctPrim.sat, condSem_false, cmpSem, ge_iff_le]
            omega

/-- Witness for C1 on the concrete implication that b implies x equals
y, under the assignment with b true and x and y both 3. -/
theorem indicator_compile_witness :
    (post_indicator true ("b") CmpOp.eq (FlatLhs.var ("x")) (Atom.var ("y"))).map
        (List.map XctPrim.toSpec)
      = some (specIndicatorTable true ("b") CmpOp.eq
          (make_numexpr (FlatLhs.var ("x")) (Atom.var ("y"))).1
          (make_numexpr (FlatLhs.var ("x")) (Atom.var ("y"))).2.1
          (make_numexpr (FlatLhs.var ("x")) (Atom.var ("y"))).2.2)
    ∧ (compiledIndicatorSat envA
        (post_indicator true ("b") CmpOp.eq (FlatLhs.var ("x")) (Atom.var ("y")))
      ↔ (condSem true (envA ("b")) →
          cmpSem CmpOp.eq (FlatLhs.eval envA (FlatLhs.var ("x")))
            (Atom.eval envA (Atom.var ("y"))))) :=
  indicator_compile_matches_table_and_semantics true ("b") CmpOp.eq (FlatLhs.var ("x"))
    (Atom.var ("y")) envA rfl (by decide) (by decide)

theorem abs_ite_bound (flag : Bool) (v : Int) :
    (bigThreshold < |if flag = true then v else 0|) ↔ (flag = true ∧ bigThreshold < |v|) := by
  cases flag
  · simp [not_lt.mpr bigThreshold_pos.le]
  · simp

theorem add_xct_constr_strEnc (cs : List Int) (vs : List String) (uselb : Bool)
    (lb : Int) (useub : Bool) (ub : Int) (h : cs ≠ []) :
    (add_xct_constr cs vs uselb lb useub ub).map XctPrim.strEnc
      = some (decide ((∃ x ∈ cs, bigThreshold < |x|)
          ∨ (uselb = true ∧ bigThreshold < |lb|)
          ∨ (useub = true ∧ bigThreshold < |ub|))) := by
  cases cs with
  | nil => exact absurd rfl h
  | cons c cs0 =>
      have hm : coefMaxAbs (c :: cs0) = some (cs0.foldl (fun m x => max m |x|) |c|) := rfl
      simp only [add_xct_constr, hm, Option.map_some', XctPrim.strEnc]
      refine congrArg some ?_
      rw [decide_eq_decide, gt_iff_lt, lt_max_iff, lt_max_iff,
        coefMaxAbs_lt bigThreshold (c :: cs0) _ hm, abs_ite_bound uselb lb,
        abs_ite_bound useub ub]
      exact or_assoc

theorem add_xct_reif_strEnc (head : String) (cs : List Int) (vs : List String)
    (lb : Int) (h : cs ≠ []) :
    (add_xct_reif head cs vs lb).map XctPrim.strEnc
      = some (decide ((∃ x ∈ cs, bigThreshold < |x|) ∨ bigThreshold < |lb|)) := by
  cases cs with
  | nil => exact absurd rfl h
  | cons c cs0 =>
      have hm : coefMaxAbs (c :: cs0) = some (cs0.foldl (fun m x => max m |x|) |c|) := rfl
      simp only [add_xct_reif, hm, Option.map_some', XctPrim.strEnc]
      refine congrArg some ?_
      rw [decide_eq_decide, gt_iff_lt, lt_max_iff,
        coefMaxAbs_lt bigThreshold (c :: cs0) _ hm]

theorem add_xct_reif_right_strEnc (head : String) (cs : List Int) (vs : List String)
    (rhs : Int) (h : cs ≠ []) :
    (add_xct_reif_right head cs vs rhs).map XctPrim.strEnc
      = some (decide ((∃ x ∈ cs, bigThreshold < |x|) ∨ bigThreshold < |rhs|)) := by
  cases cs with
  | nil => exact absurd rfl h
  | cons c cs0 =>
      have hm : coefMaxAbs (c :: cs0) = some (cs0.foldl (fun m x => max m |x|) |c|) := rfl
      simp only [add_xct_reif_right, hm, Option.map_some', XctPrim.strEnc]
      refine congrArg some ?_
      rw [decide_eq_decide, gt_iff_lt, lt_max_iff,
        coefMaxAbs_lt bigThreshold (c :: cs0) _ hm]

theorem add_xct_reif_left_strEnc (head : String) (cs : List Int) (vs : List String)
    (rhs : Int) (h : cs ≠ []) :
    (add_xct_reif_left head cs vs rhs).map XctPrim.strEnc
      = some (decide ((∃ x ∈ cs, bigThreshold < |x|) ∨ bigThreshold < |rhs|)) := by
  cases cs with
  | nil => exact absurd rfl h
  | cons c cs0 =>
      have hm : coefMaxAbs (c :: cs0) = some (cs0.foldl (fun m x => max m |x|) |c|) := rfl
      simp only [add_xct_reif_left, hm, Option.map_some', XctPrim.strEnc]
      refine congrArg some ?_
      rw [decide_eq_decide, gt_iff_lt, lt_max_iff,
        coefMaxAbs_lt bigThreshold (c :: cs0) _ hm]

/-- C4: every emitted flat-backend primitive applies the same magnitude
threshold: the string-encoded variant is chosen exactly when some
coefficient or active bound exceeds 10^18 in absolute value, for the
bounded-linear constraint, all three reification variants, and the
integer variable declaration; a Boolean declaration carries only the
bounds 0 and 1 and always uses the numeric variant. -/
theorem big_threshold_routing_uniform
    (cs : List Int) (vs : List String) (uselb : Bool) (lb : Int) (useub : Bool)
    (ub : Int) (head : String) (rb rr rl : Int) (st : XctState) (n bn : String)
    (lbv ubv : Int)
    (hne : cs ≠ [])
    (hnew : lookupVar st.varmap (CpmVar.intVar n lbv ubv) = none)
    (hnewb : lookupVar st.varmap (CpmVar.boolVar bn) = none) :
    (add_xct_constr cs vs uselb lb useub ub).map XctPrim.strEnc
      = some (decide ((∃ x ∈ cs, bigThreshold < |x|)
          ∨ (uselb = true ∧ bigThreshold < |lb|)
          ∨ (useub = true ∧ bigThreshold < |ub|)))
    ∧ (add_xct_reif head cs vs rb).map XctPrim.strEnc
      = some (decide ((∃ x ∈ cs, bigThreshold < |x|) ∨ bigThreshold < |rb|))
    ∧ (add_xct_reif_right head cs vs rr).map XctPrim.strEnc
      = some (decide ((∃ x ∈ cs, bigThreshold < |x|) ∨ bigThreshold < |rr|))
    ∧ (add_xct_reif_left head cs vs rl).map XctPrim.strEnc
      = some (decide ((∃ x ∈ cs, bigThreshold < |x|) ∨ bigThreshold < |rl|))
    ∧ resultDecls (exact_solver_var st (.intVar n lbv ubv))
      = some (st.decls ++ [if bigThreshold < max |lbv| |ubv|
          then XctDecl.declAsString n lbv ubv else XctDecl.declNum n lbv ubv])
    ∧ resultDecls (exact_solver_var st (.boolVar bn))
      = some (st.decls ++ [XctDecl.declNum bn 0 1]) := by
  refine ⟨add_xct_constr_strEnc cs vs uselb lb useub ub hne,
    add_xct_reif_strEnc head cs vs rb hne,
    add_xct_reif_right_strEnc head cs vs rr hne,
    add_xct_reif_left_strEnc head cs vs rl hne, ?_, ?_⟩
  · by_cases hc : bigThreshold < max |lbv| |ubv|
    · simp [exact_solver_var, exact_solver_var_base, hnew, hc, resultDecls]
    · simp [exact_solver_var, exact_solver_var_base, hnew, hc, resultDecls]
  · simp [exact_solver_var, exact_solver_var_base, hnewb, resultDecls]

/-- Witness for C4 at concrete primitives, one above and one below the
threshold, and a fresh declaration state. -/
theorem big_threshold_routing_witness :
    (add_xct_constr [3] ["v"] true (bigThreshold + 1) true 0).map XctPrim.strEnc
      = some (decide ((∃ x ∈ [(3 : Int)], bigThreshold < |x|)
          ∨ (true = true ∧ bigThreshold < |bigThreshold + 1|)
          ∨ (true = true ∧ bigThreshold < |(0 : Int)|)))
    ∧ (add_xct_reif ("h") [3] ["v"] 2).map XctPrim.strEnc
      = some (decide ((∃ x ∈ [(3 : Int)], bigThreshold < |x|) ∨ bigThreshold < |(2 : Int)|))
    ∧ (add_xct_reif_right ("h") [3] ["v"] 2).map XctPrim.strEnc
      = some (decide ((∃ x ∈ [(3 : Int)], bigThreshold < |x|) ∨ bigThreshold < |(2 : Int)|))
    ∧ (add_xct_reif_left ("h") [3] ["v"] 2).map XctPrim.strEnc
      = some (decide ((∃ x ∈ [(3 : Int)], bigThreshold < |x|) ∨ bigThreshold < |(2 : Int)|))
    ∧ resultDecls (exact_solver_var xctState0 (.intVar ("i") 0 5))
      = some (xctState0.decls ++ [if bigThreshold < max |(0 : Int)| |(5 : Int)|
          then XctDecl.declAsString ("i") 0 5 else XctDecl.declNum ("i") 0 5])
    ∧ resultDecls (exact_solver_var xctState0 (.boolVar ("p")))
      = some (xctState0.decls ++ [XctDecl.declNum ("p") 0 1]) :=
  big_threshold_routing_uniform [3] ["v"] true (bigThreshold + 1) true 0 ("h") 2 2 2
    xctState0 ("i") ("p") 0 5 (by decide) rfl rfl
